import Mathlib

/-!
Verification of the shipnote-ai core: multi-provider AI orchestration with
offline fallback, branch-comparison commit resolution, and error redaction.
Definitions are shallow embeddings of the TypeScript sources
(`src/integrations/providers/*`, `src/integrations/git` (in `config/config.ts`),
`src/integrations/ai-service`), with JavaScript string semantics modelled on
ASCII data. Theorems settle the frozen claims about the spec.
-/

namespace ShipNote

/-! ## JavaScript-style string helpers -/

/-- Decidable equality for `Except` results. -/
instance {ε α : Type} [DecidableEq ε] [DecidableEq α] : DecidableEq (Except ε α) :=
  fun a b =>
    match a, b with
    | .ok x, .ok y => if h : x = y then isTrue (by rw [h]) else isFalse (by simp [h])
    | .error x, .error y => if h : x = y then isTrue (by rw [h]) else isFalse (by simp [h])
    | .ok _, .error _ => isFalse (by simp)
    | .error _, .ok _ => isFalse (by simp)

/-- Model of JavaScript `toLowerCase` (ASCII). -/
def jsToLower (s : String) : String := String.mk (s.data.map Char.toLower)

/-- True when `pat` occurs as a contiguous substring of `s`
(JavaScript `s.includes(pat)`). -/
def listContainsSub (pat s : List Char) : Bool :=
  s.tails.any (fun t => pat.isPrefixOf t)

/-- Model of JavaScript `s.includes(pat)`. -/
def strContains (s pat : String) : Bool := listContainsSub pat.data s.data

/-- Model of JavaScript `s.charAt(0).toUpperCase() + s.slice(1)`. -/
def capitalizeFirst (s : String) : String :=
  match s.data with
  | [] => s
  | c :: cs => String.mk (c.toUpper :: cs)

/-- ASCII letter test (regex class `[a-zA-Z]`). -/
def isAsciiLetter (c : Char) : Bool :=
  ('a' ≤ c && c ≤ 'z') || ('A' ≤ c && c ≤ 'Z')

/-- ASCII digit test (regex class `[0-9]`). -/
def isDigitCh (c : Char) : Bool := '0' ≤ c && c ≤ '9'

/-- Regex class `[a-zA-Z0-9]`. -/
def isAlnumCh (c : Char) : Bool := isAsciiLetter c || isDigitCh c

/-- Regex class `[a-zA-Z0-9_-]`. -/
def isTokenCh (c : Char) : Bool := isAlnumCh c || c = '_' || c = '-'

/-- Regex class `\s` restricted to its ASCII members. -/
def isWsCh (c : Char) : Bool :=
  c = ' ' || c = '\t' || c = '\n' || c = '\r' || c = '\x0b' || c = '\x0c'

/-- Model of JavaScript `s.startsWith(pat)`. -/
def strStartsWith (s pat : String) : Bool := pat.data.isPrefixOf s.data

/-- Model of JavaScript `s.endsWith(pat)`. -/
def strEndsWith (s pat : String) : Bool := pat.data.isSuffixOf s.data

/-- Model of JavaScript `s.trim()` (ASCII whitespace). -/
def trimWs (s : String) : String :=
  String.mk (((s.data.dropWhile isWsCh).reverse.dropWhile isWsCh).reverse)

/-- Aux for `splitLines`: split characters at newlines, accumulating the
current (reversed) line. -/
def splitLinesAux (acc : List Char) : List Char → List String
  | [] => [String.mk acc.reverse]
  | '\n' :: rest => String.mk acc.reverse :: splitLinesAux [] rest
  | c :: rest => splitLinesAux (c :: acc) rest

/-- Case-insensitive character comparison (regex `i` flag, ASCII). -/
def lowerEq (a b : Char) : Bool := a.toLower = b.toLower

/-- Match a literal case-insensitively at the head of `s`; on success return
the remaining characters. -/
def matchLitCI : List Char → List Char → Option (List Char)
  | [], s => some s
  | _ :: _, [] => none
  | p :: ps, c :: cs => if lowerEq p c then matchLitCI ps cs else none

/-- Length of the maximal run of characters satisfying `p` at the head. -/
def runLen (p : Char → Bool) : List Char → Nat
  | [] => 0
  | c :: cs => if p c then runLen p cs + 1 else 0

/-- Aux for `collapseWs`: the boolean records whether the previous character
was whitespace (already emitted as one space). -/
def collapseWsAux : Bool → List Char → List Char
  | _, [] => []
  | prevWs, c :: cs =>
    if isWsCh c then
      if prevWs then collapseWsAux true cs else ' ' :: collapseWsAux true cs
    else c :: collapseWsAux false cs

/-- Model of JavaScript `s.replace(/\s+/g, ' ')`. -/
def collapseWs (s : String) : String := String.mk (collapseWsAux false s.data)

/-- The seven valid changelog categories, in the order the sources list them. -/
def validTypes : List String :=
  ["feat", "fix", "docs", "refactor", "style", "test", "chore"]

/-- Model of the head-anchored replace
`s.replace(/^(feat|fix|docs|refactor|style|test|chore):\s*/i, '')`. -/
def stripConvHead (s : String) : String :=
  let headMatch := validTypes.findSome? fun t =>
    match matchLitCI t.data s.data with
    | some (':' :: rest) => some (rest.dropWhile isWsCh)
    | _ => none
  match headMatch with
  | some rest => String.mk rest
  | none => s

/-! ## Data model (`providers/types.ts`, `git.ts`) -/

/-- Commit record produced by the resolver (`CommitInfo` in `git.ts`). -/
structure CommitInfo where
  hash : String
  message : String
  author : String
  date : String
  diff : String
deriving DecidableEq, Repr

/-- Classified commit (`ChangelogEntry` in `providers/types.ts`); the `type`
field is kept as a string, mirroring the runtime value. -/
structure ChangelogEntry where
  type : String
  description : String
  commit : CommitInfo
deriving DecidableEq, Repr

/-! ## `BaseAIProvider.fallbackProcessCommit` (base-provider.ts:89-121) -/

/-- Local deterministic fallback classifier and description cleaner of
`BaseAIProvider.fallbackProcessCommit`: keyword heuristics on the lowercased
message, then capitalize and add a trailing period. -/
def fallbackProcessCommit (commit : CommitInfo) : ChangelogEntry :=
  let message := jsToLower commit.message
  let type :=
    if strContains message "fix" || strContains message "bug" ||
        strContains message "resolve" then "fix"
    else if strContains message "add" || strContains message "new" ||
        strContains message "feat" || strContains message "implement" then "feat"
    else if strContains message "doc" || strContains message "readme" then "docs"
    else if strContains message "refactor" || strContains message "restructure" then "refactor"
    else if strContains message "test" || strContains message "spec" then "test"
    else if strContains message "style" || strContains message "format" ||
        strContains message "lint" then "style"
    else "chore"
  let description := capitalizeFirst commit.message
  let description := if strEndsWith description "." then description else description ++ "."
  { type := type, description := description, commit := commit }

/-! ## Provider abstraction and batch processing (base-provider.ts:126-169) -/

/-- Outcome of one provider-specific `processCommit` call: the call may throw,
resolve to `null`, or resolve to an entry. -/
inductive ProcResult where
  | thrown (msg : String)
  | null
  | entry (e : ChangelogEntry)
deriving DecidableEq, Repr

/-- A provider instance as the orchestration layer observes it: its identity
fields, the value its `isConfigured()` returns, its `processCommit` behaviour
and its (total, error-catching) `categorizeCommit` behaviour. -/
structure Provider where
  name : String
  availableModels : List String
  defaultModel : String
  isConfigured : Bool
  processCommit : CommitInfo → String → ProcResult
  categorizeCommit : CommitInfo → String

/-- Model of `BaseAIProvider.processBatch`: each commit is processed; a thrown
error is caught and replaced by the local fallback entry; a `null` result is
skipped. -/
def processBatch (p : Provider) (commits : List CommitInfo) (style : String) :
    List ChangelogEntry :=
  match commits with
  | [] => []
  | c :: rest =>
    match p.processCommit c style with
    | .thrown _ => fallbackProcessCommit c :: processBatch p rest style
    | .null => processBatch p rest style
    | .entry e => e :: processBatch p rest style

/-- Model of the batch loop of `BaseAIProvider.processCommits`: slices of 5
commits are processed in order and concatenated. -/
def processBatches (p : Provider) (commits : List CommitInfo) (style : String) :
    List ChangelogEntry :=
  match commits with
  | [] => []
  | c :: rest =>
    processBatch p (c :: rest.take 4) style ++ processBatches p (rest.drop 4) style
termination_by commits.length
decreasing_by simp [List.length_drop]; omega

/-- Model of `BaseAIProvider.processCommits`: throws when the provider is not
configured, else runs the batch loop. -/
def processCommits (p : Provider) (commits : List CommitInfo) (style : String) :
    Except String (List ChangelogEntry) :=
  if p.isConfigured then .ok (processBatches p commits style)
  else .error (p.name ++ " provider is not configured")

/-- Model of `BaseAIProvider.categorizeCommit` (both branches return the local
fallback type). -/
def baseCategorizeCommit (c : CommitInfo) : String := (fallbackProcessCommit c).type

/-- Model of `BaseAIProvider.fallbackEnhanceDescription`: trim, capitalize,
strip a conventional-commit head, collapse whitespace, add punctuation. -/
def fallbackEnhanceDescription (c : CommitInfo) : String :=
  let description := trimWs c.message
  let description := capitalizeFirst description
  let description := stripConvHead description
  let description := collapseWs description
  let description := description.trim
  if strEndsWith description "." || strEndsWith description "!" || strEndsWith description "?" then
    description
  else description ++ "."

/-! ## `OfflineProvider` (providers/offline-provider.ts) -/

/-- Search for a completion of the scope group of the conventional-commit
regex `(\(.+\))?:`: after the opening parenthesis, at least one non-newline
character must be consumed before a `):` continuation.  The boolean records
whether a character has been consumed yet. -/
def scopeSearch : Bool → List Char → Bool
  | seen, ')' :: ':' :: rest => seen || scopeSearch true (':' :: rest)
  | _, c :: rest => (c != '\n') && scopeSearch true rest
  | _, [] => false

/-- Continuation of the regex `^(type)(\(.+\))?:` after the type word: either
a colon directly, or a parenthesized scope followed by a colon. -/
def afterTypeMatch : List Char → Bool
  | ':' :: _ => true
  | '(' :: rest => scopeSearch false rest
  | _ => false

/-- Model of `message.match(/^(feat|fix|docs|refactor|style|test|chore)(\(.+\))?:/i)`
followed by `match[1].toLowerCase()`: alternatives are tried in regex order,
and the lowercased captured type is returned on success. -/
def convMatch (msg : String) : Option String :=
  validTypes.findSome? fun t =>
    match matchLitCI t.data msg.data with
    | some rest => if afterTypeMatch rest then some t else none
    | none => none

/-- Lines of a string (JavaScript `s.split('\n')`). -/
def splitLines (s : String) : List String := splitLinesAux [] s.data

/-- Number of lines of `s` starting with `p`. -/
def countLinesStart (s p : String) : Nat :=
  ((splitLines s).filter (fun l => strStartsWith l p)).length

/-- Model of `OfflineProvider.isFeatCommit`. -/
def isFeatCommit (message diff : String) : Bool :=
  let featKeywords := ["add", "new", "feature", "implement", "introduce", "create",
    "support", "enable", "allow", "provide"]
  if featKeywords.any (fun k => strContains message k) then true
  else if strContains diff "+function" || strContains diff "+class" ||
      strContains diff "+export" then
    let additions := countLinesStart diff "+"
    let deletions := countLinesStart diff "-"
    additions > deletions * 2
  else false

/-- Model of `OfflineProvider.isFixCommit`. -/
def isFixCommit (message diff : String) : Bool :=
  let fixKeywords := ["fix", "bug", "issue", "problem", "error", "crash",
    "resolve", "correct", "repair", "patch", "hotfix"]
  if fixKeywords.any (fun k => strContains message k) then true
  else
    (strContains diff "if (" && strContains diff "null") ||
    strContains diff "undefined" ||
    (strContains diff "try" && strContains diff "catch")

/-- Model of `OfflineProvider.isDocsCommit`. -/
def isDocsCommit (message diff : String) : Bool :=
  let docsKeywords := ["doc", "readme", "comment", "documentation"]
  if docsKeywords.any (fun k => strContains message k) then true
  else
    let fileChanges := (splitLines diff).filter fun l =>
      strStartsWith l "+++" || strStartsWith l "---"
    fileChanges.all fun l =>
      strContains l ".md" || strContains l ".txt" ||
      strContains l "README" || strContains l "CHANGELOG"

/-- Model of `OfflineProvider.isTestCommit`. -/
def isTestCommit (message diff : String) : Bool :=
  let testKeywords := ["test", "spec", "mock", "fixture"]
  if testKeywords.any (fun k => strContains message k) then true
  else strContains diff ".test." || strContains diff ".spec." || strContains diff "__tests__"

/-- Test of the regex `/^\s*[\+\-]\s*$/` on one line: only whitespace around a
single plus or minus sign. -/
def isBareSignLine (l : String) : Bool :=
  let t := trimWs l
  t = "+" || t = "-"

/-- Model of `OfflineProvider.isStyleCommit`; the float comparison
`m < t * 0.3` is modelled by the exact `m * 10 < t * 3`. -/
def isStyleCommit (message diff : String) : Bool :=
  let styleKeywords := ["format", "style", "lint", "prettier", "eslint", "whitespace"]
  if styleKeywords.any (fun k => strContains message k) then true
  else
    let diffLines := splitLines diff
    let meaningfulChanges := diffLines.filter fun l =>
      (strStartsWith l "+" || strStartsWith l "-") && (trimWs l).length > 1 &&
        !isBareSignLine l
    let totalChanges :=
      (diffLines.filter fun l => strStartsWith l "+" || strStartsWith l "-").length
    meaningfulChanges.length * 10 < totalChanges * 3

/-- Model of `OfflineProvider.isRefactorCommit`; the float comparison
`|a - d| < max a d * 0.3` is modelled by the exact `|a - d| * 10 < max a d * 3`. -/
def isRefactorCommit (message diff : String) : Bool :=
  let refactorKeywords := ["refactor", "restructure", "reorganize", "cleanup", "improve"]
  if refactorKeywords.any (fun k => strContains message k) then true
  else
    let additions := countLinesStart diff "+"
    let deletions := countLinesStart diff "-"
    additions > 5 && deletions > 5 &&
      (Int.natAbs ((additions : Int) - (deletions : Int))) * 10 < max additions deletions * 3

/-- Model of `OfflineProvider.categorizeCommit`: conventional-commit prefix
match first, then the pattern heuristics on the lowercased message and diff,
else `chore`. -/
def offlineCategorizeCommit (c : CommitInfo) : String :=
  match convMatch c.message with
  | some t => t
  | none =>
    let message := jsToLower c.message
    let diff := jsToLower c.diff
    if isFeatCommit message diff then "feat"
    else if isFixCommit message diff then "fix"
    else if isDocsCommit message diff then "docs"
    else if isTestCommit message diff then "test"
    else if isStyleCommit message diff then "style"
    else if isRefactorCommit message diff then "refactor"
    else "chore"

/-- The offline provider instance: always configured, its `processCommit`
always resolves to the local fallback entry, and its `categorizeCommit` is the
enhanced offline pattern matcher. -/
def OfflineProvider : Provider where
  name := "Offline"
  availableModels := ["basic-processing"]
  defaultModel := "basic-processing"
  isConfigured := true
  processCommit := fun c _ => .entry (fallbackProcessCommit c)
  categorizeCommit := offlineCategorizeCommit

/-! ## Hosted provider operations (openai-provider.ts) -/

/-- Outcome of one hosted-backend chat call as the provider code observes it:
the call may throw, or resolve with an optional content string. -/
inductive NetResult where
  | failed (msg : String)
  | content (s : Option String)
deriving DecidableEq, Repr

/-- Model of `OpenAIProvider.categorizeCommit`: unconfigured providers answer
with the base-class fallback; a response is trimmed and lowercased, accepted
when it is one of the seven valid types, and every other outcome (API error,
missing content, out-of-vocabulary category) falls back to
`super.categorizeCommit`, which returns the local fallback type. -/
def openaiCategorizeCommit (configured : Bool) (net : NetResult) (c : CommitInfo) :
    String :=
  if !configured then baseCategorizeCommit c
  else
    match net with
    | .failed _ => baseCategorizeCommit c
    | .content none => baseCategorizeCommit c
    | .content (some s) =>
      let category := jsToLower (trimWs s)
      if validTypes.contains category then category else baseCategorizeCommit c

/-- A backend reply for `parseAIResponse`, as seen after `JSON.parse`: either
unparsable, or an object with optional string fields `type` and
`description` (a non-string or absent field behaves as absent). -/
inductive AIResponse where
  | malformed
  | parsed (typeField : Option String) (descField : Option String)
deriving DecidableEq, Repr

/-- Model of `BaseAIProvider.parseAIResponse`: a parse failure falls back to
the local heuristic; a parsed object keeps its `type` only when it is one of
the seven valid types (else `chore`), and a falsy description is replaced by
the commit message. -/
def parseAIResponse (r : AIResponse) (c : CommitInfo) : ChangelogEntry :=
  match r with
  | .malformed => fallbackProcessCommit c
  | .parsed t? d? =>
    let type := match t? with
      | some t => if validTypes.contains t then t else "chore"
      | none => "chore"
    let description := match d? with
      | some d => if d = "" then c.message else d
      | none => c.message
    { type := type, description := description, commit := c }

/-- Test of `/^(feat|fix|docs|refactor|style|test|chore):/i` (the well-formed
message check of `enhanceDescription`, which has no scope group). -/
def typeColonMatch (msg : String) : Bool :=
  validTypes.any fun t =>
    match matchLitCI t.data msg.data with
    | some (':' :: _) => true
    | _ => false

/-- Model of `OpenAIProvider.enhanceDescription`: unconfigured providers use
the base fallback; a message longer than 30 characters with a
conventional-commit head is returned verbatim without consulting the backend;
otherwise the backend reply is used when it trims to a non-empty string. -/
def openaiEnhanceDescription (configured : Bool) (net : NetResult) (c : CommitInfo) :
    String :=
  if !configured then fallbackEnhanceDescription c
  else if c.message.length > 30 && typeColonMatch c.message then c.message
  else
    match net with
    | .failed _ => fallbackEnhanceDescription c
    | .content none => fallbackEnhanceDescription c
    | .content (some s) =>
      let enhanced := trimWs s
      if enhanced != "" then enhanced else fallbackEnhanceDescription c

/-! ## Registry and selection policy (`AIService` in ai-service.ts) -/

/-- Provider kinds (`AIProviderType`). -/
inductive ProviderType where
  | openai
  | anthropic
  | google
  | azure
  | offline
deriving DecidableEq, Repr

/-- The provider kinds the service initializes (`AIService.initialize`);
`azure` is excluded (the factory throws for it). -/
def supportedProviders : List ProviderType :=
  [.openai, .anthropic, .google, .offline]

/-- Display names of the provider classes. -/
def providerDisplayName : ProviderType → String
  | .openai => "OpenAI"
  | .anthropic => "Anthropic Claude"
  | .google => "Google Gemini"
  | .azure => "Azure OpenAI"
  | .offline => "Offline"

/-- Model lists of the provider classes. -/
def providerModelList : ProviderType → List String
  | .openai => ["gpt-3.5-turbo", "gpt-4", "gpt-4o", "gpt-4o-mini"]
  | .anthropic => ["claude-3-5-sonnet-20241022", "claude-3-haiku-20240307",
      "claude-3-opus-20240229"]
  | .google => ["gemini-1.5-flash", "gemini-1.5-pro", "gemini-1.0-pro"]
  | .azure => []
  | .offline => ["basic-processing"]

/-- Default models of the provider classes. -/
def providerDefaultModel : ProviderType → String
  | .openai => "gpt-3.5-turbo"
  | .anthropic => "claude-3-5-sonnet-20241022"
  | .google => "gemini-1.5-flash"
  | .azure => ""
  | .offline => "basic-processing"

/-- Service configuration (`MultiAIConfig`): designated primary and optional
fallback provider kinds. -/
structure MultiAIConfig where
  primaryProvider : ProviderType
  fallbackProvider : Option ProviderType
deriving DecidableEq, Repr

/-- The defaults the `AIService` constructor supplies. -/
def defaultMultiAIConfig : MultiAIConfig :=
  { primaryProvider := .openai, fallbackProvider := some .offline }

/-- Registry state: the map of instantiated providers (insertion order) and
the service configuration. -/
structure AIServiceState where
  providers : List (ProviderType × Provider)
  config : MultiAIConfig

/-- Lookup in the provider map (`this.providers.get(type)`). -/
def lookupProvider (ps : List (ProviderType × Provider)) (t : ProviderType) :
    Option Provider :=
  (ps.find? (fun e => e.1 == t)).map (fun e => e.2)

/-- Provider instance built for one kind: the offline kind yields the offline
provider; a hosted kind that was initialized with a credential is configured
and carries its backend behaviours. -/
def mkProvider (t : ProviderType)
    (net : CommitInfo → String → ProcResult) (catNet : CommitInfo → String) :
    Provider :=
  match t with
  | .offline => OfflineProvider
  | _ =>
    { name := providerDisplayName t
      availableModels := providerModelList t
      defaultModel := providerDefaultModel t
      isConfigured := true
      processCommit := net
      categorizeCommit := catNet }

/-- Model of `AIService.initialize`: every supported kind whose credential is
non-empty — and the offline kind unconditionally — is instantiated and added
to the map.  `keys t = \x22\x22` models an absent credential (falsy). -/
def aiServiceInit (keys : ProviderType → String)
    (net : ProviderType → CommitInfo → String → ProcResult)
    (catNet : ProviderType → CommitInfo → String)
    (cfg : MultiAIConfig) : AIServiceState :=
  { providers := supportedProviders.filterMap fun t =>
      if keys t != "" || t == .offline then some (t, mkProvider t (net t) (catNet t))
      else none
    config := cfg }

/-- Last resort of `AIService.getProvider`: the offline map entry, else the
`No AI provider is available` error. -/
def getProviderLastResort (st : AIServiceState) : Except String Provider :=
  match lookupProvider st.providers .offline with
  | some p => .ok p
  | none => .error "No AI provider is available"

/-- Fallback step of `AIService.getProvider`. -/
def getProviderViaFallback (st : AIServiceState) : Except String Provider :=
  match st.config.fallbackProvider with
  | some ft =>
    match lookupProvider st.providers ft with
    | some p => if p.isConfigured then .ok p else getProviderLastResort st
    | none => getProviderLastResort st
  | none => getProviderLastResort st

/-- Model of `AIService.getProvider`: primary if present and configured, else
fallback if present and configured, else the offline entry, else an error. -/
def getProvider (st : AIServiceState) : Except String Provider :=
  match lookupProvider st.providers st.config.primaryProvider with
  | some p => if p.isConfigured then .ok p else getProviderViaFallback st
  | none => getProviderViaFallback st

/-- One row of `AIService.getProviderStatus()`. -/
structure ProviderStatus where
  type : ProviderType
  name : String
  configured : Bool
  models : List String
  defaultModel : String
deriving DecidableEq, Repr

/-- Model of `AIService.getProviderStatus`. -/
def getProviderStatus (st : AIServiceState) : List ProviderStatus :=
  st.providers.map fun e =>
    { type := e.1
      name := e.2.name
      configured := e.2.isConfigured
      models := e.2.availableModels
      defaultModel := e.2.defaultModel }

/-- Model of `AIService.processCommits`: select a provider, then delegate. -/
def aiProcessCommits (st : AIServiceState) (commits : List CommitInfo)
    (style : String) : Except String (List ChangelogEntry) :=
  (getProvider st).bind fun p => processCommits p commits style

/-- Model of `AIService.categorizeCommit`: select a provider, then delegate. -/
def aiCategorizeCommit (st : AIServiceState) (c : CommitInfo) :
    Except String String :=
  (getProvider st).map fun p => p.categorizeCommit c

/-! ## Repository model and `GitService` branch comparison (git.ts)

The `GitService` methods shell out to git; the repository access layer is
modelled by a commit graph together with git's documented range semantics
(`A..B`: reachable from `B` but not from `A`; `A...B`: reachable from either
but not from both; `--no-merges`: at most one parent). -/

/-- One stored commit: the `CommitInfo` fields plus its parent hashes. -/
structure RepoCommit where
  hash : String
  message : String
  author : String
  date : String
  diff : String
  parents : List String
deriving DecidableEq, Repr

/-- A repository: commits in log order (newest first) and branch refs. -/
structure GitRepo where
  commits : List RepoCommit
  localBranches : List (String × String)
  remoteBranches : List (String × String)
deriving DecidableEq, Repr

/-- The `CommitInfo` view of a stored commit (what `getCommitInfo` returns). -/
def toCommitInfo (c : RepoCommit) : CommitInfo :=
  { hash := c.hash, message := c.message, author := c.author, date := c.date,
    diff := c.diff }

/-- Commit lookup by hash (`git show <hash>`). -/
def lookupCommit (repo : GitRepo) (h : String) : Option RepoCommit :=
  repo.commits.find? (fun c => c.hash == h)

/-- Parent hashes of a commit, empty when the hash is unknown. -/
def parentsOf (repo : GitRepo) (h : String) : List String :=
  match lookupCommit repo h with
  | some c => c.parents
  | none => []

/-- Branch-name resolution: a local head first, then a remote-qualified
name (the order `branchExists` probes refs). -/
def resolveRef (repo : GitRepo) (name : String) : Option String :=
  match repo.localBranches.find? (fun e => e.1 == name) with
  | some e => some e.2
  | none =>
    match repo.remoteBranches.find? (fun e => e.1 == name) with
    | some e => some e.2
    | none => none

/-- Model of `GitService.branchExists`: the name resolves locally or as a
remote-qualified name. -/
def branchExistsB (repo : GitRepo) (name : String) : Bool :=
  (resolveRef repo name).isSome

/-- Hashes reachable from `h` along parent edges, within `fuel` steps,
including `h` itself. -/
def ancestorsFuel (repo : GitRepo) : Nat → String → List String
  | 0, h => [h]
  | fuel + 1, h => h :: (parentsOf repo h).flatMap (ancestorsFuel repo fuel)

/-- Ancestry test: `tgt` is reachable from `src` (`src` itself included);
the fuel `repo.commits.length` covers every simple path of the graph. -/
def reachableB (repo : GitRepo) (src tgt : String) : Bool :=
  (ancestorsFuel repo repo.commits.length src).contains tgt

/-- Branch-comparison strategies (`BranchComparisonOptions.strategy`). -/
inductive Strategy where
  | commits
  | mergeBase
  | oneWay
  | symmetric
deriving DecidableEq, Repr

/-- Options of `getCommitsBetweenBranches`. -/
structure BranchComparisonOptions where
  includeUnmerged : Option Bool := none
  includeMergeCommits : Option Bool := none
  strategy : Option Strategy := none
deriving DecidableEq, Repr

/-- The hash list `git log --pretty=format:%H` produces for a range predicate:
commits of the log satisfying the predicate, with `--no-merges` (at most one
parent) applied when requested. -/
def gitLogRange (repo : GitRepo) (pred : RepoCommit → Bool) (noMerges : Bool) :
    List String :=
  ((repo.commits.filter fun c =>
      pred c && (!noMerges || c.parents.length ≤ 1))).map (fun c => c.hash)

/-- True when `h` is an ancestor of both branch heads. -/
def isCommonAncestor (repo : GitRepo) (aH bH h : String) : Bool :=
  reachableB repo aH h && reachableB repo bH h

/-- Model of `GitService.getMergeBase`: resolve both names and return a
nearest (maximal) common ancestor; an error when either name fails to resolve
or no common ancestor exists. -/
def getMergeBase (repo : GitRepo) (branch1 branch2 : String) :
    Except String String :=
  let failMsg := "Failed to find merge base between " ++ branch1 ++ " and " ++ branch2
  match resolveRef repo branch1, resolveRef repo branch2 with
  | some aH, some bH =>
    let cands := repo.commits.filter fun c => isCommonAncestor repo aH bH c.hash
    let best := cands.find? fun c =>
      cands.all fun c2 => !reachableB repo c2.hash c.hash || c2.hash == c.hash
    match best with
    | some c => .ok c.hash
    | none => .error failMsg
  | _, _ => .error failMsg

/-- Wrapper the outer catch of `getCommitsBetweenBranches` puts around any
thrown message. -/
def betweenBranchesErr (fromBranch toBranch msg : String) : String :=
  "Failed to get commits between branches " ++ fromBranch ++ " and " ++
    toBranch ++ ": " ++ msg

/-- Range predicate selected by the strategy switch (`commits` falls into the
`default` arm, i.e. one-way). -/
def strategyRangePred (repo : GitRepo) (fromH toH : String) :
    Strategy → String → RepoCommit → Bool
  | .symmetric, _ => fun c =>
    (reachableB repo fromH c.hash || reachableB repo toH c.hash) &&
      !(reachableB repo fromH c.hash && reachableB repo toH c.hash)
  | .mergeBase, mb => fun c =>
    reachableB repo toH c.hash && !reachableB repo mb c.hash
  | _, _ => fun c =>
    reachableB repo toH c.hash && !reachableB repo fromH c.hash

/-- Assembly loop of `getCommitsBetweenBranches`: each hash is looked up
(`getCommitInfo`; a failed lookup is skipped), and when merge commits are
excluded, a message starting with `Merge` is skipped as well. -/
def assembleCommits (repo : GitRepo) (hashes : List String) (noMerges : Bool) :
    List CommitInfo :=
  hashes.filterMap fun h =>
    match lookupCommit repo h with
    | some rc =>
      if noMerges && strStartsWith (toCommitInfo rc).message "Merge" then none
      else some (toCommitInfo rc)
    | none => none

/-- Model of `GitService.getCommitsBetweenBranches`: validate both branch
names, select the range by strategy (default one-way), run the log with
`--no-merges` when merge commits are excluded, then assemble and post-filter
the commit records. -/
def getCommitsBetweenBranches (repo : GitRepo) (fromBranch toBranch : String)
    (options : Option BranchComparisonOptions) : Except String (List CommitInfo) :=
  if !branchExistsB repo fromBranch then
    .error (betweenBranchesErr fromBranch toBranch
      ("Branch \x27" ++ fromBranch ++ "\x27 does not exist"))
  else if !branchExistsB repo toBranch then
    .error (betweenBranchesErr fromBranch toBranch
      ("Branch \x27" ++ toBranch ++ "\x27 does not exist"))
  else
    match resolveRef repo fromBranch, resolveRef repo toBranch with
    | some fromH, some toH =>
      let strategy := (options.bind (fun o => o.strategy)).getD .oneWay
      let noMerges := (options.bind (fun o => o.includeMergeCommits)) == some false
      match strategy with
      | .mergeBase =>
        match getMergeBase repo fromBranch toBranch with
        | .ok mb =>
          .ok (assembleCommits repo
            (gitLogRange repo (strategyRangePred repo fromH toH .mergeBase mb) noMerges)
            noMerges)
        | .error e => .error (betweenBranchesErr fromBranch toBranch e)
      | s =>
        .ok (assembleCommits repo
          (gitLogRange repo (strategyRangePred repo fromH toH s "") noMerges)
          noMerges)
    | _, _ =>
      .error (betweenBranchesErr fromBranch toBranch "Unknown error")

/-! ## Error-message sanitizer (error-sanitizer.ts)

Each sensitive regex is embedded as a matcher: at a given position it returns
the number of characters the (greedy, leftmost) match consumes, or `none`.
Every pattern's repetition classes are disjoint from the delimiter that
follows them, so the greedy match length is forced and no further
backtracking arises. -/

/-- A matcher: match length at the head of the input, or `none`. -/
abbrev Matcher := List Char → Option Nat

/-- Word class `[a-zA-Z0-9_]` (pattern 10 has no dash in its first class). -/
def isWordCh (c : Char) : Bool := isAlnumCh c || c = '_'

/-- Lowercase a character list. -/
def jsToLowerList (cs : List Char) : List Char := cs.map Char.toLower

/-- Leftmost non-overlapping global replace (JavaScript
`s.replace(pattern, repl)` with the `g` flag), fuel-driven. -/
def replaceScan (m : Matcher) (repl : List Char) : Nat → List Char → List Char
  | 0, cs => cs
  | fuel + 1, cs =>
    match cs with
    | [] => []
    | c :: rest =>
      match m cs with
      | some (n + 1) => repl ++ replaceScan m repl fuel (cs.drop (n + 1))
      | _ => c :: replaceScan m repl fuel rest

/-- String version of `replaceScan` with adequate fuel. -/
def replaceAllM (m : Matcher) (repl : String) (s : String) : String :=
  String.mk (replaceScan m repl.data s.data.length s.data)

/-- Matcher for a case-insensitive literal followed by at least `minLen`
characters of a class (shape of patterns 1-4). -/
def litThenRun (lit : String) (cls : Char → Bool) (minLen : Nat) : Matcher :=
  fun cs =>
    match matchLitCI lit.data cs with
    | some rest =>
      let n := runLen cls rest
      if minLen ≤ n then some (lit.length + n) else none
    | none => none

/-- Pattern `/sk-[a-zA-Z0-9]{16,}/gi`. -/
def skKeyM : Matcher := litThenRun "sk-" isAlnumCh 16

/-- Pattern `/sk-ant-api03-[a-zA-Z0-9_-]{12,}/gi`. -/
def skAntM : Matcher := litThenRun "sk-ant-api03-" isTokenCh 12

/-- Pattern `/AIzaSy[a-zA-Z0-9_-]{14,}/gi`. -/
def googleKeyM : Matcher := litThenRun "AIzaSy" isTokenCh 14

/-- Pattern `/ya29\.a0[a-zA-Z0-9_-]{10,}/gi`. -/
def ya29M : Matcher := litThenRun "ya29.a0" isTokenCh 10

/-- Pattern `/eyJ[a-zA-Z0-9_-]+\.[a-zA-Z0-9_-]+\.[a-zA-Z0-9_-]+/gi`. -/
def jwtM : Matcher := fun cs =>
  match matchLitCI "eyJ".data cs with
  | some r1 =>
    let n1 := runLen isTokenCh r1
    if n1 = 0 then none else
    match r1.drop n1 with
    | '.' :: r2 =>
      let n2 := runLen isTokenCh r2
      if n2 = 0 then none else
      match r2.drop n2 with
      | '.' :: r3 =>
        let n3 := runLen isTokenCh r3
        if n3 = 0 then none else some (3 + n1 + 1 + n2 + 1 + n3)
      | _ => none
    | _ => none
  | none => none

/-- Pattern `/Authorization:\s*Bearer\s+[a-zA-Z0-9_-]{16,}/gi`. -/
def authHeaderM : Matcher := fun cs =>
  match matchLitCI "Authorization:".data cs with
  | some r1 =>
    let w1 := runLen isWsCh r1
    match matchLitCI "Bearer".data (r1.drop w1) with
    | some r2 =>
      let w2 := runLen isWsCh r2
      if w2 = 0 then none else
      let n := runLen isTokenCh (r2.drop w2)
      if 16 ≤ n then some (14 + w1 + 6 + w2 + n) else none
    | none => none
  | none => none

/-- Pattern `/x-api-key:\s*[a-zA-Z0-9_-]{14,}/gi`. -/
def xApiKeyM : Matcher := fun cs =>
  match matchLitCI "x-api-key:".data cs with
  | some r1 =>
    let w := runLen isWsCh r1
    let n := runLen isTokenCh (r1.drop w)
    if 14 ≤ n then some (10 + w + n) else none
  | none => none

/-- Pattern `/"[a-zA-Z]*[kK]ey":\s*"[a-zA-Z0-9_-]{12,}"/gi`: the letter run
must end in `key` (case-insensitively), then `":`, optional whitespace, and a
quoted value of at least 12 token characters. -/
def jsonKeyM : Matcher := fun cs =>
  match cs with
  | '"' :: r1 =>
    let n := runLen isAsciiLetter r1
    if n < 3 then none else
    if jsToLowerList ((r1.take n).drop (n - 3)) = ['k', 'e', 'y'] then
      match r1.drop n with
      | '"' :: ':' :: r2 =>
        let w := runLen isWsCh r2
        match r2.drop w with
        | '"' :: r3 =>
          let m := runLen isTokenCh r3
          if 12 ≤ m then
            match r3.drop m with
            | '"' :: _ => some (1 + n + 2 + w + 1 + m + 1)
            | _ => none
          else none
        | _ => none
      | _ => none
    else none
  | _ => none

/-- Pattern `/sk-[a-zA-Z0-9]{4,}\.{3}[a-zA-Z0-9]+/gi`. -/
def skPartialM : Matcher := fun cs =>
  match matchLitCI "sk-".data cs with
  | some r1 =>
    let n1 := runLen isAlnumCh r1
    if n1 < 4 then none else
    match r1.drop n1 with
    | '.' :: '.' :: '.' :: r2 =>
      let n2 := runLen isAlnumCh r2
      if n2 = 0 then none else some (3 + n1 + 3 + n2)
    | _ => none
  | none => none

/-- Pattern `/AIzaSy[a-zA-Z0-9_]{4,}\.{3}[a-zA-Z0-9_-]+/gi`. -/
def googlePartialM : Matcher := fun cs =>
  match matchLitCI "AIzaSy".data cs with
  | some r1 =>
    let n1 := runLen isWordCh r1
    if n1 < 4 then none else
    match r1.drop n1 with
    | '.' :: '.' :: '.' :: r2 =>
      let n2 := runLen isTokenCh r2
      if n2 = 0 then none else some (6 + n1 + 3 + n2)
    | _ => none
  | none => none

/-- The sensitive patterns in source order. -/
def sensitiveMatchers : List Matcher :=
  [skKeyM, skAntM, googleKeyM, ya29M, jwtM, authHeaderM, xApiKeyM, jsonKeyM,
    skPartialM, googlePartialM]

/-- The redaction marker as characters. -/
def redactedTok : List Char := "[REDACTED]".data

/-- Greedy count of extra characters consumed by repetitions of
`(\s*\[REDACTED\])` (fuel-driven). -/
def collapseExtra : Nat → List Char → Nat
  | 0, _ => 0
  | fuel + 1, cs =>
    let w := runLen isWsCh cs
    if redactedTok.isPrefixOf (cs.drop w) then
      (w + 10) + collapseExtra fuel ((cs.drop w).drop 10)
    else 0

/-- Pattern `/\[REDACTED\](\s*\[REDACTED\])+/g` (case-sensitive). -/
def collapseM : Matcher := fun cs =>
  if redactedTok.isPrefixOf cs then
    let rest := cs.drop 10
    let extra := collapseExtra rest.length rest
    if extra = 0 then none else some (10 + extra)
  else none

/-- Sequential application of the sensitive patterns. -/
def applyMatchers (ms : List Matcher) (s : String) : String :=
  ms.foldl (fun acc m => replaceAllM m "[REDACTED]" acc) s

/-- The safe phrases of the restore branch, in source order. -/
def safePatternsList : List String :=
  ["Rate limit exceeded", "Please try again", "Invalid request", "Unauthorized",
    "Forbidden", "Not found", "Internal server error", "Bad request", "Timeout",
    "Connection failed"]

/-- Model of `sanitizeErrorMessage` on string input (the null and non-string
guard of the source lies outside the model): apply the sensitive patterns,
collapse adjacent markers, and when the whole message collapsed to a single
marker but the original contains a safe phrase, return the original message
unchanged. -/
def sanitizeErrorMessage (errorMessage : String) : String :=
  let sanitized := applyMatchers sensitiveMatchers errorMessage
  let sanitized := replaceAllM collapseM "[REDACTED]" sanitized
  if sanitized = "[REDACTED]" then
    if safePatternsList.any
        (fun sp => strContains (jsToLower errorMessage) (jsToLower sp)) then
      errorMessage
    else sanitized
  else sanitized

/-! ## Concrete fixtures used by witnesses and counterexamples -/

/-- A plain commit with a feature-keyword message. -/
def cxCommit : CommitInfo :=
  { hash := "c1", message := "add feature", author := "a", date := "2024-01-01", diff := "" }

/-- An OpenAI-shaped provider instance before initialization: `isConfigured()`
is false. -/
def cxUnconfigured : Provider :=
  { name := "OpenAI"
    availableModels := providerModelList .openai
    defaultModel := providerDefaultModel .openai
    isConfigured := false
    processCommit := fun c _ => .entry (fallbackProcessCommit c)
    categorizeCommit := baseCategorizeCommit }

/-- A commit whose message is over 30 characters and conventionally headed. -/
def cxWellFormed : CommitInfo :=
  { hash := "c2", message := "feat: improve the login flow throughout", author := "a",
    date := "2024-01-01", diff := "" }

/-- A commit whose keyword fallback gives `feat`. -/
def cxOovCommit : CommitInfo :=
  { hash := "c3", message := "add login", author := "a", date := "2024-01-01", diff := "" }

/-- A configured provider whose backend throws on the commit hashed `t1` and
answers a fixed entry for every other commit. -/
def cxBatchProvider : Provider :=
  { name := "OpenAI"
    availableModels := providerModelList .openai
    defaultModel := providerDefaultModel .openai
    isConfigured := true
    processCommit := fun c _ =>
      if c.hash == "t1" then .thrown "boom"
      else .entry { type := "feat", description := "ai text", commit := c }
    categorizeCommit := baseCategorizeCommit }

/-- Six commits, so the batch loop runs two slices of five and one. -/
def cxBatchCommits : List CommitInfo :=
  ["t1", "t2", "t3", "t4", "t5", "t6"].map fun h =>
    { hash := h, message := "tweak parser", author := "a", date := "2024-01-01", diff := "" }

/-- Per-commit result shape the batch machinery guarantees: the backend entry
when one was produced, the local fallback entry otherwise. -/
def entryOrFallback (p : Provider) (style : String) (c : CommitInfo) : ChangelogEntry :=
  match p.processCommit c style with
  | .entry e => e
  | _ => fallbackProcessCommit c

/-- A commit with a `chore:` head but a `fix` keyword in the subject. -/
def cxPrefixCommit : CommitInfo :=
  { hash := "h1", message := "chore: fix typo", author := "a", date := "2024-01-01", diff := "" }

/-- The spec scenario commit `feat: add login`. -/
def cxFeatCommit : CommitInfo :=
  { hash := "h2", message := "feat: add login", author := "a", date := "2024-01-01", diff := "" }

/-- Zero credentials: every provider key is absent. -/
def cxZeroKeys : ProviderType → String := fun _ => ""

/-- Hosted backend behaviour that always throws (never reachable offline). -/
def cxNet : ProviderType → CommitInfo → String → ProcResult := fun _ _ _ => .thrown "net down"

/-- Hosted categorize behaviour used by fixtures. -/
def cxCatNet : ProviderType → CommitInfo → String := fun _ c => baseCategorizeCommit c

/-- Registry state initialized with zero credentials and default config. -/
def cxZeroState : AIServiceState :=
  aiServiceInit cxZeroKeys cxNet cxCatNet defaultMultiAIConfig

/-- A parentless commit on an orphan branch. -/
def cxRootCommit : RepoCommit :=
  { hash := "h2", message := "feature work", author := "a", date := "2024-01-01",
    diff := "", parents := [] }

/-- The root commit of the main branch. -/
def cxBaseCommit : RepoCommit :=
  { hash := "h1", message := "init", author := "a", date := "2024-01-01",
    diff := "", parents := [] }

/-- Repository with two unrelated root commits on two branches. -/
def cxOrphanRepo : GitRepo :=
  { commits := [cxRootCommit, cxBaseCommit]
    localBranches := [("master", "h1"), ("feature", "h2")]
    remoteBranches := [] }

/-- The non-merge feature commit of the strategy-witness repository. -/
def cxFeatureTip : RepoCommit :=
  { hash := "h2", message := "feat: search", author := "a", date := "2024-01-02",
    diff := "", parents := ["h1"] }

/-- The diverged master commit of the strategy-witness repository. -/
def cxMasterTip : RepoCommit :=
  { hash := "h3", message := "chore: deps", author := "a", date := "2024-01-03",
    diff := "", parents := ["h1"] }

/-- Repository where `master` and `feature` diverge from the shared root. -/
def cxStratRepo : GitRepo :=
  { commits := [cxMasterTip, cxFeatureTip, cxBaseCommit]
    localBranches := [("master", "h3"), ("feature", "h2")]
    remoteBranches := [] }

/-- The credential-shaped input on which the sanitizer restore branch fires:
it matches the OpenAI key pattern `sk-[a-zA-Z0-9]\x7b16,\x7d` and contains
the safe phrase `Timeout` inside the key body. -/
def cxLeakInput : String := "sk-TimeoutAAAAAAAAApqr"

/-- Builder for the batch-witness commits. -/
def mkBatchCommit (h : String) : CommitInfo :=
  { hash := h, message := "tweak parser", author := "a", date := "2024-01-01", diff := "" }

/-- The entries the batch witness expects: the failed first commit is served
by the local fallback, the remaining five by the backend answer. -/
def cxBatchExpected : List ChangelogEntry :=
  fallbackProcessCommit (mkBatchCommit "t1") ::
    (["t2", "t3", "t4", "t5", "t6"].map fun h =>
      { type := "feat", description := "ai text", commit := mkBatchCommit h })

/-! ## Helper lemmas -/

/-- The local fallback classifier only ever emits one of the seven types. -/
theorem fallbackType_mem (c : CommitInfo) : (fallbackProcessCommit c).type ∈ validTypes := by
  simp only [fallbackProcessCommit, validTypes]
  split_ifs <;> simp

/-- One batch maps each commit to its backend entry or, when the call threw,
to the local fallback entry — provided no call resolves to `null`. -/
theorem processBatch_eq_map (p : Provider) (style : String) :
    ∀ commits : List CommitInfo,
    (∀ c ∈ commits, p.processCommit c style ≠ .null) →
    processBatch p commits style = commits.map (entryOrFallback p style) := by
  intro commits
  induction commits with
  | nil => intro _; rfl
  | cons c rest ih =>
    intro h
    have hc := h c (List.mem_cons_self c rest)
    have hrest := fun x hx => h x (List.mem_cons_of_mem c hx)
    cases hpc : p.processCommit c style with
    | thrown m => simp [processBatch, hpc, ih hrest, entryOrFallback]
    | null => exact absurd hpc hc
    | entry e => simp [processBatch, hpc, ih hrest, entryOrFallback]

/-- The sliced batch loop is semantically transparent: it also maps each
commit to its backend-or-fallback entry. -/
theorem processBatches_eq_map (p : Provider) (style : String) :
    ∀ (n : Nat) (commits : List CommitInfo), commits.length ≤ n →
    (∀ c ∈ commits, p.processCommit c style ≠ .null) →
    processBatches p commits style = commits.map (entryOrFallback p style) := by
  intro n
  induction n with
  | zero =>
    intro commits hlen _
    have hnil : commits = [] := List.eq_nil_of_length_eq_zero (Nat.le_zero.mp hlen)
    subst hnil
    simp [processBatches]
  | succ n ih =>
    intro commits hlen h
    cases commits with
    | nil => simp [processBatches]
    | cons c rest =>
      have hbatch : ∀ x ∈ c :: rest.take 4, p.processCommit x style ≠ .null := by
        intro x hx
        rcases List.mem_cons.mp hx with hx1 | hx2
        · subst hx1; exact h x (List.mem_cons_self x rest)
        · exact h x (List.mem_cons_of_mem c (List.take_subset 4 rest hx2))
      have hdrop : ∀ x ∈ rest.drop 4, p.processCommit x style ≠ .null :=
        fun x hx => h x (List.mem_cons_of_mem c (List.drop_subset 4 rest hx))
      have hlen2 : (rest.drop 4).length ≤ n := by
        simp only [List.length_drop]
        simp only [List.length_cons] at hlen
        omega
      rw [processBatches, processBatch_eq_map p style _ hbatch, ih _ hlen2 hdrop,
        ← List.map_append]
      congr 1
      show c :: (rest.take 4 ++ rest.drop 4) = c :: rest
      rw [List.take_append_drop]

/-! ## C6 — a failing commit never aborts the batch -/

/-- C6: for every configured provider and non-empty commit list,
`processCommits` walks the commits in slices of five and succeeds with
exactly one entry per input commit, each commit mapped to its backend entry
or — when the backend call threw on that commit — to the local fallback
entry, so one failure never aborts the batch (provided no backend call
resolves to `null`, which silently drops the entry instead of failing). -/
theorem batch_failure_isolation (p : Provider) (commits : List CommitInfo)
    (style : String)
    (hconf : p.isConfigured = true)
    (hne : commits ≠ [])
    (hnn : ∀ c ∈ commits, p.processCommit c style ≠ .null) :
    processCommits p commits style = .ok (commits.map (entryOrFallback p style)) ∧
    (∀ entries, processCommits p commits style = .ok entries →
      entries.length = commits.length) ∧
    (∀ c ∈ commits, (∀ m, p.processCommit c style ≠ .entry m) →
      entryOrFallback p style c = fallbackProcessCommit c) := by
  have hmain := processBatches_eq_map p style commits.length commits le_rfl hnn
  refine ⟨?_, ?_, ?_⟩
  · simp [processCommits, hconf, hmain]
  · intro entries he
    simp only [processCommits, hconf, if_true, hmain] at he
    cases he
    exact List.length_map commits (entryOrFallback p style)
  · intro c _ hnm
    unfold entryOrFallback
    cases hpc : p.processCommit c style with
    | thrown m => rfl
    | null => rfl
    | entry e => exact absurd hpc (hnm e)

/-- C6 witness: six commits where the first backend call throws — the result
still has six entries, the first being the local fallback entry. -/
theorem batch_failure_isolation_witness :
    processCommits cxBatchProvider cxBatchCommits "formal" = .ok cxBatchExpected ∧
    cxBatchExpected.length = cxBatchCommits.length := by
  have h := (batch_failure_isolation cxBatchProvider cxBatchCommits "formal"
    rfl (by decide) (by decide)).1
  exact ⟨h.trans (by decide), by decide⟩

/-! ## C10 — direct batch call on an unconfigured provider throws -/

/-- C10: for every provider whose `isConfigured()` is false, calling its
`processCommits` directly throws the not-configured error naming the
provider, instead of falling back to local processing — the never-fail
fallback lives only in the registry selection layer. -/
theorem unconfigured_processCommits_throws (p : Provider)
    (commits : List CommitInfo) (style : String)
    (h : p.isConfigured = false) :
    processCommits p commits style =
      .error (p.name ++ " provider is not configured") := by
  simp [processCommits, h]

/-- C10 witness: the unconfigured OpenAI-shaped instance throws on a direct
`processCommits` call. -/
theorem unconfigured_processCommits_throws_witness :
    cxUnconfigured.isConfigured = false ∧
    processCommits cxUnconfigured [cxCommit] "formal" =
      .error "OpenAI provider is not configured" :=
  ⟨rfl, unconfigured_processCommits_throws cxUnconfigured [cxCommit] "formal" rfl⟩

/-! ## C9 — enhancement skips already well-formed messages -/

/-- C9: a configured hosted provider returns the original message verbatim
from `enhanceDescription` whenever the message is longer than 30 characters
and carries a conventional-commit head, for every possible backend behaviour
(so no backend call is consulted and nothing is rewritten). -/
theorem enhance_skips_wellformed (net : NetResult) (c : CommitInfo)
    (hlen : 30 < c.message.length)
    (hconv : typeColonMatch c.message = true) :
    openaiEnhanceDescription true net c = c.message := by
  simp [openaiEnhanceDescription, hlen, hconv]

/-- C9 witness: the 39-character message `feat: improve the login flow
throughout` is returned verbatim even when the backend would throw. -/
theorem enhance_skips_wellformed_witness :
    30 < cxWellFormed.message.length ∧
    typeColonMatch cxWellFormed.message = true ∧
    openaiEnhanceDescription true (.failed "net down") cxWellFormed =
      cxWellFormed.message :=
  ⟨by decide, by decide,
    enhance_skips_wellformed (.failed "net down") cxWellFormed (by decide) (by decide)⟩

/-- A case-insensitive literal matches itself followed by anything. -/
theorem matchLitCI_self_append (p rest : List Char) :
    matchLitCI p (p ++ rest) = some rest := by
  induction p with
  | nil => rfl
  | cons c cs ih => simp [matchLitCI, lowerEq, ih]

/-- The conventional-commit matcher fires on every message built as a valid
type word, a colon, and an arbitrary suffix, capturing that type. -/
theorem convMatch_append (t suffix : String) (ht : t ∈ validTypes) :
    convMatch (t ++ ":" ++ suffix) = some t := by
  fin_cases ht <;>
    simp +decide [convMatch, validTypes, List.findSome?_cons, matchLitCI, lowerEq,
      afterTypeMatch, String.data_append, show (String.data ":") = [':'] from rfl]

/-! ## C8 — conventional-commit prefix handling of the fallback classifiers -/

/-- C8 counterexample: the message `chore: fix typo` begins with the
conventional prefix `chore:`, yet the base-provider fallback classifier
(`fallbackProcessCommit`, used by every hosted provider when unconfigured or
on backend failure) has no prefix path and classifies it as `fix` through the
keyword heuristic. -/
theorem base_fallback_prefix_cx :
    convMatch cxPrefixCommit.message = some "chore" ∧
    (fallbackProcessCommit cxPrefixCommit).type = "fix" ∧
    ("fix" : String) ≠ "chore" := by decide

/-- C8 (amended): the OFFLINE classifier (`OfflineProvider.categorizeCommit`)
takes the conventional-commit prefix path before any keyword heuristic: when
the prefix regex captures `t`, the classification is exactly `t` (one of the
seven types), and the matcher fires on every `t:`-headed message.  The
base-provider keyword fallback `fallbackProcessCommit` has no prefix path,
so the prefix-first guarantee holds only for the offline classifier (and thus
for the no-provider-configured scenario, which the registry serves through
the offline provider). -/
theorem offline_prefix_first (c : CommitInfo) (t : String)
    (h : convMatch c.message = some t) :
    offlineCategorizeCommit c = t ∧ t ∈ validTypes ∧
    (∀ t2 ∈ validTypes, ∀ suffix : String, convMatch (t2 ++ ":" ++ suffix) = some t2) := by
  refine ⟨by simp [offlineCategorizeCommit, h], ?_, fun t2 ht2 suffix => convMatch_append t2 suffix ht2⟩
  obtain ⟨a, ha, hfa⟩ := List.exists_of_findSome?_eq_some h
  revert hfa
  cases hm : matchLitCI a.data c.message.data with
  | none => simp
  | some rest =>
    by_cases hat : afterTypeMatch rest = true
    · simp only [hat, if_true]
      intro hfa
      cases hfa
      exact ha
    · simp only [Bool.not_eq_true] at hat
      simp [hat]

/-- C8 witness: `chore: fix typo` classifies as `chore` through the offline
prefix path, and with zero providers configured the facade classifies
`feat: add login` as `feat` (the spec scenario). -/
theorem offline_prefix_first_witness :
    convMatch cxPrefixCommit.message = some "chore" ∧
    offlineCategorizeCommit cxPrefixCommit = "chore" ∧
    aiCategorizeCommit cxZeroState cxFeatCommit = .ok "feat" :=
  ⟨by decide, (offline_prefix_first cxPrefixCommit "chore" (by decide)).1, by decide⟩

/-! ## C4 — classification is total over backend responses -/

/-- C4: for every commit and every backend outcome (thrown call, missing
content, or any content string — in particular an out-of-vocabulary
category), `categorizeCommit` of a configured hosted provider returns one of
the seven fixed categories and never surfaces an error; every
out-of-vocabulary or failed outcome goes through the deterministic local
fallback (`super.categorizeCommit`).  Likewise `parseAIResponse` always
yields a valid type and falls back to the local heuristic on a parse
failure. -/
theorem classification_always_valid (c : CommitInfo) (net : NetResult) (r : AIResponse) :
    openaiCategorizeCommit true net c ∈ validTypes ∧
    (∀ s, net = .content (some s) →
      validTypes.contains (jsToLower (trimWs s)) = false →
      openaiCategorizeCommit true net c = baseCategorizeCommit c) ∧
    (∀ m, net = .failed m → openaiCategorizeCommit true net c = baseCategorizeCommit c) ∧
    (net = .content none → openaiCategorizeCommit true net c = baseCategorizeCommit c) ∧
    (parseAIResponse r c).type ∈ validTypes ∧
    (r = .malformed → parseAIResponse r c = fallbackProcessCommit c) := by
  refine ⟨?_, ?_, ?_, ?_, ?_, ?_⟩
  · cases net with
    | failed m =>
      simpa [openaiCategorizeCommit, baseCategorizeCommit] using fallbackType_mem c
    | content os =>
      cases os with
      | none => simpa [openaiCategorizeCommit, baseCategorizeCommit] using fallbackType_mem c
      | some s =>
        by_cases hmem : jsToLower (trimWs s) ∈ validTypes
        · simp [openaiCategorizeCommit, List.elem_eq_true_of_mem hmem, hmem]
        · have hcf : validTypes.contains (jsToLower (trimWs s)) = false := by
            cases hb : validTypes.contains (jsToLower (trimWs s)) with
            | false => rfl
            | true => exact absurd (List.mem_of_elem_eq_true hb) hmem
          simp only [openaiCategorizeCommit, Bool.not_true, hcf, Bool.false_eq_true,
            if_false, reduceIte]
          simpa [baseCategorizeCommit] using fallbackType_mem c
  · intro s hs hcontains
    subst hs
    simp only [openaiCategorizeCommit, Bool.not_true, hcontains, Bool.false_eq_true,
      if_false, reduceIte]
  · intro m hm
    subst hm
    simp [openaiCategorizeCommit]
  · intro hn
    subst hn
    simp [openaiCategorizeCommit]
  · cases r with
    | malformed => simpa [parseAIResponse] using fallbackType_mem c
    | parsed t? d? =>
      cases t? with
      | none => simp [parseAIResponse, validTypes]
      | some t =>
        by_cases hmem : t ∈ validTypes
        · simp [parseAIResponse, List.elem_eq_true_of_mem hmem, hmem]
        · have hcf : validTypes.contains t = false := by
            cases hb : validTypes.contains t with
            | false => rfl
            | true => exact absurd (List.mem_of_elem_eq_true hb) hmem
          simp only [parseAIResponse, hcf, Bool.false_eq_true, if_false, reduceIte]
          simp [validTypes]
  · intro hr
    subst hr
    rfl

/-- C4 witness: the out-of-vocabulary backend answer `banana` on the commit
`add login` is mapped through the deterministic local fallback, whose keyword
heuristic yields `feat`, and a malformed parse falls back likewise. -/
theorem classification_always_valid_witness :
    validTypes.contains (jsToLower (trimWs "banana")) = false ∧
    openaiCategorizeCommit true (.content (some "banana")) cxOovCommit =
      baseCategorizeCommit cxOovCommit ∧
    baseCategorizeCommit cxOovCommit = "feat" ∧
    parseAIResponse .malformed cxOovCommit = fallbackProcessCommit cxOovCommit :=
  ⟨by decide,
    (classification_always_valid cxOovCommit (.content (some "banana")) .malformed).2.1
      "banana" rfl (by decide),
    by decide,
    (classification_always_valid cxOovCommit (.content (some "banana")) .malformed).2.2.2.2.2
      rfl⟩

/-! ## C7 — branch validation precedes any range query -/

/-- C7: branch comparison validates both branch names (local or
remote-qualified) before any range query: a missing `fromBranch` — or a
missing `toBranch` when `fromBranch` exists — makes the call fail with an
error naming exactly the missing branch, and no commit list is returned. -/
theorem branch_validation_errors (repo : GitRepo) (fromB toB : String)
    (opts : Option BranchComparisonOptions) :
    (branchExistsB repo fromB = false →
      getCommitsBetweenBranches repo fromB toB opts =
        .error (betweenBranchesErr fromB toB
          ("Branch \x27" ++ fromB ++ "\x27 does not exist"))) ∧
    (branchExistsB repo fromB = true → branchExistsB repo toB = false →
      getCommitsBetweenBranches repo fromB toB opts =
        .error (betweenBranchesErr fromB toB
          ("Branch \x27" ++ toB ++ "\x27 does not exist"))) := by
  constructor
  · intro h
    simp [getCommitsBetweenBranches, h]
  · intro h1 h2
    simp [getCommitsBetweenBranches, h1, h2]

/-- C7 witness: both missing-branch directions on the two-branch repository,
with the exact error text. -/
theorem branch_validation_errors_witness :
    branchExistsB cxOrphanRepo "nope" = false ∧
    getCommitsBetweenBranches cxOrphanRepo "nope" "feature" none =
      .error "Failed to get commits between branches nope and feature: Branch \x27nope\x27 does not exist" ∧
    getCommitsBetweenBranches cxOrphanRepo "master" "gone" none =
      .error "Failed to get commits between branches master and gone: Branch \x27gone\x27 does not exist" :=
  ⟨by decide,
    (branch_validation_errors cxOrphanRepo "nope" "feature" none).1 (by decide),
    (branch_validation_errors cxOrphanRepo "master" "gone" none).2 (by decide) (by decide)⟩

/-! ## Git-model helper lemmas -/

/-- A successful commit lookup returns a stored commit with the looked-up
hash. -/
theorem lookupCommit_mem (repo : GitRepo) (h : String) (rc : RepoCommit)
    (hl : lookupCommit repo h = some rc) : rc ∈ repo.commits ∧ rc.hash = h := by
  unfold lookupCommit at hl
  have hp := List.find?_some hl
  exact ⟨List.mem_of_find?_eq_some hl, by simpa using hp⟩

/-- With duplicate-free hashes, `find?` by a member's hash returns that
member. -/
theorem find?_hash_self (l : List RepoCommit)
    (hnd : (l.map RepoCommit.hash).Nodup) :
    ∀ c ∈ l, l.find? (fun x => x.hash == c.hash) = some c := by
  induction l with
  | nil => intro c hc; cases hc
  | cons a t ih =>
    intro c hc
    have hnd2 : (a.hash :: t.map RepoCommit.hash).Nodup := by simpa using hnd
    rcases List.mem_cons.mp hc with h1 | h2
    · subst h1
      simp [List.find?]
    · have hne : (a.hash == c.hash) = false := by
        apply beq_eq_false_iff_ne.mpr
        intro he
        have hnm : a.hash ∉ t.map RepoCommit.hash := (List.nodup_cons.mp hnd2).1
        have hch : c.hash ∈ t.map RepoCommit.hash := List.mem_map_of_mem _ h2
        rw [he] at hnm
        exact hnm hch
    -- wait, placeholder
      rw [List.find?]
      simp only [hne]
      exact ih (List.nodup_cons.mp hnd2).2 c h2

/-- With duplicate-free hashes, looking a member up by its hash returns it. -/
theorem lookupCommit_self (repo : GitRepo)
    (hnd : (repo.commits.map RepoCommit.hash).Nodup) :
    ∀ c ∈ repo.commits, lookupCommit repo c.hash = some c := by
  intro c hc
  unfold lookupCommit
  exact find?_hash_self repo.commits hnd c hc

/-- Every hash the log range with `--no-merges` emits comes from a stored
commit with at most one parent. -/
theorem gitLogRange_noMerges_mem (repo : GitRepo) (pred : RepoCommit → Bool)
    (h : String) (hm : h ∈ gitLogRange repo pred true) :
    ∃ c ∈ repo.commits, c.hash = h ∧ c.parents.length ≤ 1 := by
  unfold gitLogRange at hm
  obtain ⟨c, hc, hch⟩ := List.mem_map.mp hm
  obtain ⟨hcm, hcond⟩ := List.mem_filter.mp hc
  refine ⟨c, hcm, hch, ?_⟩
  have h2 := hcond
  simp at h2
  exact h2.2

/-- Every commit the assembly loop emits under merge exclusion has a
non-`Merge` message and is the lookup image of one of the hashes. -/
theorem assemble_mem (repo : GitRepo) (hs : List String) (ci : CommitInfo)
    (hm : ci ∈ assembleCommits repo hs true) :
    strStartsWith ci.message "Merge" = false ∧
    ∃ h ∈ hs, ∃ rc, lookupCommit repo h = some rc ∧ ci = toCommitInfo rc := by
  unfold assembleCommits at hm
  obtain ⟨h, hh, hfm⟩ := List.mem_filterMap.mp hm
  cases hl : lookupCommit repo h with
  | none => rw [hl] at hfm; cases hfm
  | some rc =>
    rw [hl] at hfm
    by_cases hsw : strStartsWith (toCommitInfo rc).message "Merge" = true
    · simp [hsw] at hfm
    · simp only [Bool.not_eq_true] at hsw
      simp only [hsw, Bool.and_false, Bool.true_and, Bool.false_eq_true, if_false,
        reduceIte] at hfm
      cases hfm
      exact ⟨by simpa [toCommitInfo] using hsw, h, hh, rc, hl, rfl⟩

/-- Shared conclusion for C2: every commit assembled from a `--no-merges` log
range has a non-`Merge` message and at most one parent. -/
theorem assembled_props (repo : GitRepo) (pred : RepoCommit → Bool)
    (hnd : (repo.commits.map RepoCommit.hash).Nodup) :
    ∀ ci ∈ assembleCommits repo (gitLogRange repo pred true) true,
      strStartsWith ci.message "Merge" = false ∧
      ∀ rc, lookupCommit repo ci.hash = some rc → rc.parents.length ≤ 1 := by
  intro ci hci
  obtain ⟨hsw, h, hh, rc, hl, hci2⟩ := assemble_mem repo _ ci hci
  obtain ⟨c, hcm, hch, hpar⟩ := gitLogRange_noMerges_mem repo pred h hh
  obtain ⟨hrcm, hrch⟩ := lookupCommit_mem repo h rc hl
  have hrc_eq : rc = c := by
    apply List.inj_on_of_nodup_map hnd hrcm hcm
    rw [hrch, hch]
  refine ⟨hsw, ?_⟩
  intro rc2 hl2
  have hcihash : ci.hash = h := by rw [hci2]; exact hrch
  rw [hcihash, hl] at hl2
  cases hl2
  rw [hrc_eq]
  exact hpar

/-! ## C2 — merge filtering enforces both conditions -/

/-- C2 counterexample: under `includeMergeCommits = false`, the one-way range
`master..feature` of a repository whose feature branch is an orphan root
returns that root commit, which has zero parents — so the returned set is NOT
restricted to commits with exactly one parent, only to commits with at most
one parent. -/
theorem merge_filter_exactly_one_parent_cx :
    getCommitsBetweenBranches cxOrphanRepo "master" "feature"
      (some { includeMergeCommits := some false }) = .ok [toCommitInfo cxRootCommit] ∧
    lookupCommit cxOrphanRepo (toCommitInfo cxRootCommit).hash = some cxRootCommit ∧
    cxRootCommit.parents.length ≠ 1 := by decide

/-- C2 (amended): with `includeMergeCommits = false`, every commit the
branch comparison returns has a message that does not start with `Merge` AND
at most one parent (`--no-merges` excludes multi-parent commits; root commits
with zero parents pass) — both the parent-count condition and the
message-prefix condition are enforced, not message-prefix matching alone. -/
theorem merge_filter_both_conditions (repo : GitRepo) (fromB toB : String)
    (opts : BranchComparisonOptions) (cis : List CommitInfo)
    (hnd : (repo.commits.map RepoCommit.hash).Nodup)
    (hmc : opts.includeMergeCommits = some false)
    (hok : getCommitsBetweenBranches repo fromB toB (some opts) = .ok cis) :
    ∀ ci ∈ cis, strStartsWith ci.message "Merge" = false ∧
      ∀ rc, lookupCommit repo ci.hash = some rc → rc.parents.length ≤ 1 := by
  simp only [getCommitsBetweenBranches] at hok
  by_cases h1 : branchExistsB repo fromB = true
  case neg =>
    simp only [Bool.not_eq_true] at h1
    simp [h1] at hok
  by_cases h2 : branchExistsB repo toB = true
  case neg =>
    simp only [Bool.not_eq_true] at h2
    simp [h1, h2] at hok
  simp only [h1, h2, Bool.not_true, Bool.false_eq_true, if_false, reduceIte] at hok
  obtain ⟨fromH, hf⟩ := Option.isSome_iff_exists.mp (by simpa [branchExistsB] using h1)
  obtain ⟨toH, ht⟩ := Option.isSome_iff_exists.mp (by simpa [branchExistsB] using h2)
  rw [hf, ht] at hok
  have hnm : ((some opts).bind (fun o => o.includeMergeCommits) == some false) = true := by
    simp [hmc]
  simp only [Option.some_bind, hmc, beq_self_eq_true] at hok
  rcases hstrat : opts.strategy with _ | s
  · simp only [hstrat, Option.getD_none] at hok
    cases hok
    exact assembled_props repo _ hnd
  · cases s <;> simp only [hstrat, Option.getD_some] at hok
    · cases hok
      exact assembled_props repo _ hnd
    · cases hmb : getMergeBase repo fromB toB with
      | ok mb =>
        rw [hmb] at hok
        cases hok
        exact assembled_props repo _ hnd
      | error e =>
        rw [hmb] at hok
        cases hok
    · cases hok
      exact assembled_props repo _ hnd
    · cases hok
      exact assembled_props repo _ hnd

/-- C2 witness: on the orphan repository the amended property holds of the
returned root commit — message not starting with `Merge`, at most one
parent. -/
theorem merge_filter_both_conditions_witness :
    strStartsWith (toCommitInfo cxRootCommit).message "Merge" = false ∧
    ∀ rc, lookupCommit cxOrphanRepo (toCommitInfo cxRootCommit).hash = some rc →
      rc.parents.length ≤ 1 :=
  merge_filter_both_conditions cxOrphanRepo "master" "feature"
    { includeMergeCommits := some false } [toCommitInfo cxRootCommit]
    (by decide) rfl (by decide) (toCommitInfo cxRootCommit) (by decide)

/-! ## C5 — strategy range semantics -/

/-- Without merge exclusion the log range is the plain filtered log. -/
theorem gitLogRange_false (repo : GitRepo) (pred : RepoCommit → Bool) :
    gitLogRange repo pred false = (repo.commits.filter pred).map RepoCommit.hash := by
  unfold gitLogRange
  congr 1
  apply List.filter_congr
  intro c _
  simp

/-- Without merge exclusion, assembling the filtered log hashes just maps the
matching commits to their records (given duplicate-free hashes). -/
theorem assemble_noFilter (repo : GitRepo) (pred : RepoCommit → Bool)
    (hnd : (repo.commits.map RepoCommit.hash).Nodup) :
    assembleCommits repo (gitLogRange repo pred false) false =
      (repo.commits.filter pred).map toCommitInfo := by
  rw [gitLogRange_false]
  unfold assembleCommits
  rw [List.filterMap_map]
  have hcg : ∀ c ∈ repo.commits.filter pred,
      ((fun h => match lookupCommit repo h with
        | some rc =>
          if false && strStartsWith (toCommitInfo rc).message "Merge" then none
          else some (toCommitInfo rc)
        | none => none) ∘ RepoCommit.hash) c = some (toCommitInfo c) := by
    intro c hc
    have hcm : c ∈ repo.commits := (List.mem_filter.mp hc).1
    simp only [Function.comp, lookupCommit_self repo hnd c hcm, Bool.false_and,
      Bool.false_eq_true, if_false, reduceIte]
  rw [List.filterMap_congr hcg]
  induction (repo.commits.filter pred) with
  | nil => rfl
  | cons a t ih => simp [List.filterMap, ih]

/-- A successful `getMergeBase` answer is the hash of a stored commit that is
a common ancestor of both heads and is nearest: it is not a strict ancestor
of any other common-ancestor commit. -/
theorem getMergeBase_spec (repo : GitRepo) (b1 b2 aH bH mb : String)
    (h1 : resolveRef repo b1 = some aH) (h2 : resolveRef repo b2 = some bH)
    (hmb : getMergeBase repo b1 b2 = .ok mb) :
    (∃ c ∈ repo.commits, c.hash = mb) ∧
    isCommonAncestor repo aH bH mb = true ∧
    ∀ c2 ∈ repo.commits, isCommonAncestor repo aH bH c2.hash = true →
      reachableB repo c2.hash mb = true → c2.hash = mb := by
  unfold getMergeBase at hmb
  rw [h1, h2] at hmb
  dsimp only at hmb
  set cands := repo.commits.filter (fun c => isCommonAncestor repo aH bH c.hash) with hcands
  cases hfind : cands.find? (fun c =>
      cands.all fun c2 => !reachableB repo c2.hash c.hash || c2.hash == c.hash) with
  | none =>
    rw [hfind] at hmb
    cases hmb
  | some c =>
    rw [hfind] at hmb
    cases hmb
    have hmem := List.mem_of_find?_eq_some hfind
    have hpred := List.find?_some hfind
    rw [hcands] at hmem
    obtain ⟨hcm, hca⟩ := List.mem_filter.mp hmem
    refine ⟨⟨c, hcm, rfl⟩, hca, ?_⟩
    intro c2 hc2 hca2 hreach
    have hc2cand : c2 ∈ cands := by
      rw [hcands]
      exact List.mem_filter.mpr ⟨hc2, hca2⟩
    have hall := List.all_eq_true.mp hpred c2 hc2cand
    rcases Bool.or_eq_true_iff.mp hall with hno | heq
    · rw [Bool.not_eq_true'] at hno
      rw [hreach] at hno
      cases hno
    · exact eq_of_beq heq

/-- C5: with both branches resolving and merge commits not excluded, the
comparison resolves the commit range per strategy: one-way (also the default
when no strategy is given, and the `commits` value, which falls into the
default arm) returns commits reachable from `toBranch` but not `fromBranch`;
symmetric returns commits reachable from either branch but not both;
merge-base computes a nearest common ancestor of the two branches and returns
commits reachable from `toBranch` but not from that ancestor. -/
theorem branch_strategy_semantics (repo : GitRepo) (fromB toB fromH toH : String)
    (opts : Option BranchComparisonOptions)
    (hnd : (repo.commits.map RepoCommit.hash).Nodup)
    (hfrom : resolveRef repo fromB = some fromH)
    (hto : resolveRef repo toB = some toH)
    (hmc : (opts.bind fun o => o.includeMergeCommits) ≠ some false) :
    ((opts.bind fun o => o.strategy) = none ∨
        (opts.bind fun o => o.strategy) = some .oneWay ∨
        (opts.bind fun o => o.strategy) = some .commits →
      getCommitsBetweenBranches repo fromB toB opts =
        .ok ((repo.commits.filter fun c =>
          reachableB repo toH c.hash && !reachableB repo fromH c.hash).map
            toCommitInfo)) ∧
    ((opts.bind fun o => o.strategy) = some .symmetric →
      getCommitsBetweenBranches repo fromB toB opts =
        .ok ((repo.commits.filter fun c =>
          (reachableB repo fromH c.hash || reachableB repo toH c.hash) &&
            !(reachableB repo fromH c.hash && reachableB repo toH c.hash)).map
              toCommitInfo)) ∧
    ((opts.bind fun o => o.strategy) = some .mergeBase →
      ∀ mb, getMergeBase repo fromB toB = .ok mb →
        isCommonAncestor repo fromH toH mb = true ∧
        (∀ c2 ∈ repo.commits, isCommonAncestor repo fromH toH c2.hash = true →
          reachableB repo c2.hash mb = true → c2.hash = mb) ∧
        getCommitsBetweenBranches repo fromB toB opts =
          .ok ((repo.commits.filter fun c =>
            reachableB repo toH c.hash && !reachableB repo mb c.hash).map
              toCommitInfo)) := by
  have h1 : branchExistsB repo fromB = true := by simp [branchExistsB, hfrom]
  have h2 : branchExistsB repo toB = true := by simp [branchExistsB, hto]
  have hnm : ((opts.bind fun o => o.includeMergeCommits) == some false) = false :=
    beq_eq_false_iff_ne.mpr hmc
  refine ⟨?_, ?_, ?_⟩
  · intro hs
    simp only [getCommitsBetweenBranches, h1, h2, Bool.not_true, Bool.false_eq_true,
      if_false, reduceIte, hfrom, hto]
    rcases hs with hs | hs | hs <;>
      simp only [hs, Option.getD_none, Option.getD_some, hnm] <;>
      dsimp only [strategyRangePred] <;>
      exact congrArg Except.ok (assemble_noFilter repo _ hnd)
  · intro hs
    simp only [getCommitsBetweenBranches, h1, h2, Bool.not_true, Bool.false_eq_true,
      if_false, reduceIte, hfrom, hto]
    simp only [hs, Option.getD_some, hnm]
    dsimp only [strategyRangePred]
    exact congrArg Except.ok (assemble_noFilter repo _ hnd)
  · intro hs mb hmbok
    obtain ⟨_, hca, hnear⟩ :=
      getMergeBase_spec repo fromB toB fromH toH mb hfrom hto hmbok
    refine ⟨hca, hnear, ?_⟩
    simp only [getCommitsBetweenBranches, h1, h2, Bool.not_true, Bool.false_eq_true,
      if_false, reduceIte, hfrom, hto]
    simp only [hs, Option.getD_some, hnm, hmbok]
    dsimp only [strategyRangePred]
    exact congrArg Except.ok (assemble_noFilter repo _ hnd)

/-- C5 witness: on the diverged two-branch repository, one-way, symmetric and
merge-base strategies return the expected commit sets. -/
theorem branch_strategy_semantics_witness :
    getCommitsBetweenBranches cxStratRepo "master" "feature"
      (some { strategy := some .symmetric }) =
      .ok [toCommitInfo cxMasterTip, toCommitInfo cxFeatureTip] ∧
    getCommitsBetweenBranches cxStratRepo "master" "feature" none =
      .ok [toCommitInfo cxFeatureTip] ∧
    getMergeBase cxStratRepo "master" "feature" = .ok "h1" ∧
    getCommitsBetweenBranches cxStratRepo "master" "feature"
      (some { strategy := some .mergeBase }) = .ok [toCommitInfo cxFeatureTip] := by
  have hsym := (branch_strategy_semantics cxStratRepo "master" "feature" "h3" "h2"
    (some { strategy := some .symmetric }) (by decide) rfl rfl (by decide)).2.1 rfl
  have hone := (branch_strategy_semantics cxStratRepo "master" "feature" "h3" "h2"
    none (by decide) rfl rfl (by decide)).1 (Or.inl rfl)
  have hmb := ((branch_strategy_semantics cxStratRepo "master" "feature" "h3" "h2"
    (some { strategy := some .mergeBase }) (by decide) rfl rfl (by decide)).2.2 rfl
    "h1" (by decide)).2.2
  exact ⟨hsym.trans (by decide), hone.trans (by decide), by decide,
    hmb.trans (by decide)⟩

/-! ## C1 — registry selection totality -/

/-- Every provider instance the service registers is configured: hosted kinds
are only instantiated with a credential, and the offline kind is always
configured. -/
theorem init_mem_configured (keys : ProviderType → String)
    (net : ProviderType → CommitInfo → String → ProcResult)
    (catNet : ProviderType → CommitInfo → String) (cfg : MultiAIConfig) :
    ∀ e ∈ (aiServiceInit keys net catNet cfg).providers, e.2.isConfigured = true := by
  intro e he
  simp only [aiServiceInit, supportedProviders] at he
  rw [List.mem_filterMap] at he
  obtain ⟨t, _, hft⟩ := he
  by_cases hc : (keys t != "" || t == ProviderType.offline) = true
  · rw [if_pos hc] at hft
    cases hft
    cases t <;> rfl
  · rw [if_neg hc] at hft
    cases hft

/-- The derived boolean equality on provider kinds agrees with decidable
propositional equality. -/
theorem providerType_beq_eq (a b : ProviderType) : (a == b) = decide (a = b) := by
  cases a <;> cases b <;> rfl

/-- The offline provider is always registered. -/
theorem lookup_offline_init (keys : ProviderType → String)
    (net : ProviderType → CommitInfo → String → ProcResult)
    (catNet : ProviderType → CommitInfo → String) (cfg : MultiAIConfig) :
    lookupProvider (aiServiceInit keys net catNet cfg).providers .offline =
      some OfflineProvider := by
  simp only [aiServiceInit, supportedProviders, lookupProvider, mkProvider]
  by_cases hk1 : (keys .openai != "") = true <;>
    by_cases hk2 : (keys .anthropic != "") = true <;>
      by_cases hk3 : (keys .google != "") = true <;>
        simp +decide [List.filterMap, hk1, hk2, hk3, List.find?, providerType_beq_eq]

/-- With zero credentials the registry holds exactly the offline provider. -/
theorem init_zero_providers (keys : ProviderType → String)
    (net : ProviderType → CommitInfo → String → ProcResult)
    (catNet : ProviderType → CommitInfo → String) (cfg : MultiAIConfig)
    (hz : ∀ t, keys t = "") :
    (aiServiceInit keys net catNet cfg).providers = [(.offline, OfflineProvider)] := by
  simp +decide [aiServiceInit, supportedProviders, hz, mkProvider, List.filterMap,
    providerType_beq_eq]

/-- With zero credentials the selection chain lands on the offline provider,
whatever the configured primary and fallback kinds are. -/
theorem getProvider_zero (keys : ProviderType → String)
    (net : ProviderType → CommitInfo → String → ProcResult)
    (catNet : ProviderType → CommitInfo → String) (cfg : MultiAIConfig)
    (hz : ∀ t, keys t = "") :
    getProvider (aiServiceInit keys net catNet cfg) = .ok OfflineProvider := by
  have hprov := init_zero_providers keys net catNet cfg hz
  have hcfg : (aiServiceInit keys net catNet cfg).config = cfg := rfl
  unfold getProvider getProviderViaFallback getProviderLastResort
  rw [hprov, hcfg]
  rcases cfg with ⟨pp, fp⟩
  cases pp <;> rcases fp with _ | ft <;> try cases ft
  all_goals simp +decide [lookupProvider, List.find?, OfflineProvider, providerType_beq_eq]

/-- C1: provider selection over an initialized registry is a total three-step
chain — the primary provider when registered (registered providers are always
configured), else the fallback provider when registered, else the offline
provider, which is always registered — so selection never fails; and with
zero credentials the status list still contains a configured entry (the
offline provider) and `processCommits` completes without throwing. -/
theorem provider_selection_total (keys : ProviderType → String)
    (net : ProviderType → CommitInfo → String → ProcResult)
    (catNet : ProviderType → CommitInfo → String) (cfg : MultiAIConfig) :
    (∀ p, lookupProvider (aiServiceInit keys net catNet cfg).providers
        cfg.primaryProvider = some p →
      getProvider (aiServiceInit keys net catNet cfg) = .ok p) ∧
    (lookupProvider (aiServiceInit keys net catNet cfg).providers
        cfg.primaryProvider = none →
      ∀ ft p, cfg.fallbackProvider = some ft →
        lookupProvider (aiServiceInit keys net catNet cfg).providers ft = some p →
        getProvider (aiServiceInit keys net catNet cfg) = .ok p) ∧
    (lookupProvider (aiServiceInit keys net catNet cfg).providers
        cfg.primaryProvider = none →
      (∀ ft, cfg.fallbackProvider = some ft →
        lookupProvider (aiServiceInit keys net catNet cfg).providers ft = none) →
      getProvider (aiServiceInit keys net catNet cfg) = .ok OfflineProvider) ∧
    (∃ p, getProvider (aiServiceInit keys net catNet cfg) = .ok p ∧
      p.isConfigured = true) ∧
    ((∀ t, keys t = "") →
      (∃ e ∈ getProviderStatus (aiServiceInit keys net catNet cfg),
        e.configured = true) ∧
      (∀ commits style, ∃ entries,
        aiProcessCommits (aiServiceInit keys net catNet cfg) commits style =
          .ok entries)) := by
  have hconf := init_mem_configured keys net catNet cfg
  have hoff := lookup_offline_init keys net catNet cfg
  have hcfg : (aiServiceInit keys net catNet cfg).config = cfg := rfl
  have hlc : ∀ t p, lookupProvider (aiServiceInit keys net catNet cfg).providers t =
      some p → p.isConfigured = true := by
    intro t p hl
    unfold lookupProvider at hl
    cases hf : (aiServiceInit keys net catNet cfg).providers.find? (fun e => e.1 == t) with
    | none => rw [hf] at hl; cases hl
    | some e =>
      rw [hf] at hl
      cases hl
      exact hconf e (List.mem_of_find?_eq_some hf)
  refine ⟨?_, ?_, ?_, ?_, ?_⟩
  · intro p hl
    simp [getProvider, hcfg, hl, hlc cfg.primaryProvider p hl]
  · intro hnone ft p hft hl
    simp [getProvider, getProviderViaFallback, hcfg, hnone, hft, hl, hlc ft p hl]
  · intro hnone hall
    rcases hfb : cfg.fallbackProvider with _ | ft
    · simp [getProvider, getProviderViaFallback, getProviderLastResort, hcfg, hnone,
        hfb, hoff]
    · simp [getProvider, getProviderViaFallback, getProviderLastResort, hcfg, hnone,
        hfb, hall ft hfb, hoff]
  · cases hp : lookupProvider (aiServiceInit keys net catNet cfg).providers
        cfg.primaryProvider with
    | some p =>
      exact ⟨p, by simp [getProvider, hcfg, hp, hlc cfg.primaryProvider p hp],
        hlc cfg.primaryProvider p hp⟩
    | none =>
      rcases hfb : cfg.fallbackProvider with _ | ft
      · exact ⟨OfflineProvider,
          by simp [getProvider, getProviderViaFallback, getProviderLastResort, hcfg,
            hp, hfb, hoff], rfl⟩
      · cases hft : lookupProvider (aiServiceInit keys net catNet cfg).providers ft with
        | some p =>
          exact ⟨p, by simp [getProvider, getProviderViaFallback, hcfg, hp, hfb, hft,
            hlc ft p hft], hlc ft p hft⟩
        | none =>
          exact ⟨OfflineProvider,
            by simp [getProvider, getProviderViaFallback, getProviderLastResort, hcfg,
              hp, hfb, hft, hoff], rfl⟩
  · intro hz
    have hprov := init_zero_providers keys net catNet cfg hz
    constructor
    · refine ⟨(⟨.offline, "Offline", true, ["basic-processing"],
        "basic-processing"⟩ : ProviderStatus), ?_, rfl⟩
      simp [getProviderStatus, hprov, OfflineProvider]
    · intro commits style
      refine ⟨processBatches OfflineProvider commits style, ?_⟩
      simp [aiProcessCommits, getProvider_zero keys net catNet cfg hz, processCommits,
        OfflineProvider, Except.bind]

/-- C1 witness: with zero credentials and the default configuration, the
status list contains the configured offline entry and a concrete commit list
is processed without error. -/
theorem provider_selection_total_witness :
    (∃ e ∈ getProviderStatus cxZeroState, e.configured = true) ∧
    (∃ entries, aiProcessCommits cxZeroState [cxCommit] "formal" = .ok entries) :=
  (provider_selection_total cxZeroKeys cxNet cxCatNet defaultMultiAIConfig).2.2.2.2
    (fun _ => rfl)
    |>.imp id (fun h => h [cxCommit] "formal")

/-! ## C3 — redaction completeness fails on the restore branch -/

/-- C3 (code bug at `cxLeakInput`): the input matches the sanitizer's own
OpenAI-key pattern and the pattern pass redacts it to exactly `[REDACTED]`,
but the safe-phrase restore branch then returns the ORIGINAL message
verbatim because the phrase `Timeout` occurs (case-insensitively) inside the
key body — so the credential-shaped substring survives and no redaction
marker remains, contradicting the redaction-completeness requirement.
Outside that branch the sanitizer behaves as specified: a key embedded in a
longer message is replaced by the marker even when a safe phrase is
present. -/
theorem sanitize_restore_leaks :
    (skKeyM cxLeakInput.data).isSome = true ∧
    applyMatchers sensitiveMatchers cxLeakInput = "[REDACTED]" ∧
    sanitizeErrorMessage cxLeakInput = cxLeakInput ∧
    strContains (sanitizeErrorMessage cxLeakInput) "[REDACTED]" = false ∧
    sanitizeErrorMessage "Unauthorized: sk-1234567890abcdef1234 key" =
      "Unauthorized: [REDACTED] key" := by decide

end ShipNote
